import Mathlib

/-!
Verification of the signal-normalization layer of a TinyGo board-abstraction
library: key-event tracking (bitmask edge detection), touch-input calibration
(median filter, IIR filter, hysteresis, clamping, rotation) and battery
state-of-charge approximation (piecewise-linear interpolation, fixed-point
smoothing).

The Go source is embedded shallowly: Go `int` values become `Int` (no Go
computation here overflows 64 bits on its actual inputs, and none of the
embedded operations depends on the width except where noted), unsigned machine
integers become `Nat` with explicit `% 2^w` where the source can wrap, and
Go integer division (which truncates toward zero) becomes `Int.tdiv`.
-/

namespace Board

/-! ## Bit-level helpers

`popcount` is the number of set bits (the spec's popcount); `trailingZeros`
mirrors `math/bits.TrailingZeros32` (32 on input 0, otherwise the index of the
lowest set bit). -/

/-- Number of set bits of a natural number. -/
def popcount (n : Nat) : Nat :=
  if n = 0 then 0 else popcount (n / 2) + n % 2
termination_by n
decreasing_by omega

/-- Embedding of `bits.TrailingZeros32`: index of the lowest set bit, 32 for 0. -/
def trailingZeros (n : Nat) : Nat :=
  if n = 0 then 32
  else if n % 2 = 1 then 0
  else trailingZeros (n / 2) + 1
termination_by n
decreasing_by omega

/-! ## Key codes and key events (src common file)

The `Key` constants are an iota-enumeration: NoKey=0, KeyEscape=1, KeyLeft=2,
KeyRight=3, KeyUp=4, KeyDown=5, KeyEnter=6, KeySpace=7, KeyA=8, KeyB=9,
KeyL=10, KeyR=11, KeySelect=12, KeyStart=13. A `KeyEvent` is a `uint16`
holding a key code in the low bits plus a release flag in bit 15. -/

/-- Sentinel key event meaning no event was available (`NoKeyEvent = 0`). -/
def NoKeyEvent : Nat := 0

/-- Release flag of a key event (`keyReleased = KeyEvent(1 << 15)`). -/
def keyReleased : Nat := 1 <<< 15

/-- Embedding of `KeyEvent.Pressed`: true for a press, false for a release
(`k & keyReleased == 0`). -/
def KeyEvent.Pressed (k : Nat) : Bool := k &&& keyReleased == 0

/-- The GBA `codes` table (`var codes = [16]Key{KeyA, KeyB, KeySelect,
KeyStart, KeyRight, KeyLeft, KeyUp, KeyDown, KeyR, KeyL}`): a Go `[16]Key`
array, zero-filled past index 9.  Indices at or above 16 never occur (the
change mask is a `uint16`). -/
def codes (i : Nat) : Nat :=
  match i with
  | 0 => 8   -- KeyA
  | 1 => 9   -- KeyB
  | 2 => 12  -- KeySelect
  | 3 => 13  -- KeyStart
  | 4 => 3   -- KeyRight
  | 5 => 2   -- KeyLeft
  | 6 => 4   -- KeyUp
  | 7 => 5   -- KeyDown
  | 8 => 11  -- KeyR
  | 9 => 10  -- KeyL
  | _ => 0   -- zero value of the Go array

/-- Button-tracker state of the GBA board: the freshly sampled mask and the
mask whose events have already been reported.  Both are `uint16` in Go; all
reachable values stay below `2^16` (xor and single-bit toggles of `uint16`
values cannot leave that range), so no wrap is modelled. -/
structure gbaButtons where
  state : Nat
  previousState : Nat

/-- Embedding of `gbaButtons.NextEvent`, returning the event together with the
updated tracker (the Go method mutates the receiver). -/
def gbaButtons.NextEvent (b : gbaButtons) : Nat × gbaButtons :=
  -- The xor between the previous state and the current state is the buttons
  -- that changed.
  let change := b.state ^^^ b.previousState
  if change = 0 then
    (NoKeyEvent, b)
  else
    -- Find the index of the button with the lowest index that changed state.
    let index := trailingZeros change
    let e := codes index
    -- The button state change was from 1 to 0, so it was released.
    let e := if b.state &&& (1 <<< index) = 0 then e ||| keyReleased else e
    -- By toggling the bit, the bit will be set to the value that is currently
    -- in b.state.
    (e, { b with previousState := b.previousState ^^^ (1 <<< index) })

/-- The event value `NextEvent` produces for a sampled mask `s` when it
resolves bit `i` (proof-side restatement of the event construction). -/
def eventFor (s i : Nat) : Nat :=
  if s &&& (1 <<< i) = 0 then codes i ||| keyReleased else codes i

/-- Repeatedly call `NextEvent` (at most `fuel` times) while the change mask is
non-zero, recording for each productive call the resolved bit index and the
returned event, and returning the final tracker state. -/
def gbaButtons.drainEvents : Nat → gbaButtons → List (Nat × Nat) × gbaButtons
  | 0, b => ([], b)
  | fuel + 1, b =>
    let change := b.state ^^^ b.previousState
    if change = 0 then
      ([], b)
    else
      let r := b.NextEvent
      let rest := gbaButtons.drainEvents fuel r.2
      ((trailingZeros change, r.1) :: rest.1, rest.2)

/-! ## Battery approximation (src common battery file)

`voltages` is a Go `[6]uint16` (millivolts), `percents` a `[6]int8`.  They are
embedded as functions from the index; indices outside 0..5 never occur in the
embedded code.  All `uint32` arithmetic is embedded on `Nat` with explicit
`% 2^32` wherever the Go expression can wrap. -/

/-- Go `uint32(v)` conversion of a signed value (two's complement). -/
def uint32ofInt (v : Int) : Nat := (v % 2 ^ 32).toNat

/-- Go `int8(n)` conversion of a `uint32` value (reinterpret the low byte). -/
def int8ofUint32 (n : Nat) : Int :=
  if n % 2 ^ 8 < 2 ^ 7 then (n % 2 ^ 8 : Nat) else (n % 2 ^ 8 : Nat) - 2 ^ 8

/-- Go `int32(n)` conversion of a `uint32` value (reinterpret). -/
def int32ofUint32 (n : Nat) : Int :=
  if n % 2 ^ 32 < 2 ^ 31 then (n % 2 ^ 32 : Nat) else (n % 2 ^ 32 : Nat) - 2 ^ 32

/-- Go `int32` wraparound of an integer arithmetic result. -/
def wrapInt32 (v : Int) : Int := (v + 2 ^ 31) % 2 ^ 32 - 2 ^ 31

/-- Battery discharge-curve table: voltage breakpoints in millivolts and the
corresponding charge percents. -/
structure batteryApproximation where
  voltages : Nat → Nat
  percents : Nat → Int

/-- Default lithium battery charge curve
(`{3500,3600,3700,3750,3900,4180} mV -> {0,10,25,50,75,100}%`), the only
instantiation in the repository (the PineTime `batteryPercent` table is
identical). -/
def lithumBatteryApproximation : batteryApproximation where
  voltages := fun i =>
    match i with
    | 0 => 3500 | 1 => 3600 | 2 => 3700 | 3 => 3750 | 4 => 3900 | 5 => 4180
    | _ => 0
  percents := fun i =>
    match i with
    | 0 => 0 | 1 => 10 | 2 => 25 | 3 => 50 | 4 => 75 | 5 => 100
    | _ => 0

/-- Body of the `range approx.voltages` loop of `approximate` at index `i`,
executed when `voltages[i]*1000 > microvolts` first holds.  Only `1 ≤ i ≤ 5`
occurs: the `i = 0` iteration is dead code behind the initial
`microvolts <= voltages[0]*1000` check (in Go it would panic on
`voltages[-1]`).  All intermediate `uint32` operations wrap modulo `2^32`. -/
def batteryApproximation.segment (approx : batteryApproximation) (i : Nat)
    (microvolts : Nat) : Int :=
  let voltStart := approx.voltages (i - 1) * 1000 % 2 ^ 32
  let voltEnd := approx.voltages i * 1000 % 2 ^ 32
  let percentStart := approx.percents (i - 1)
  let percentEnd := approx.percents i
  let voltOffset := (microvolts + 2 ^ 32 - voltStart) % 2 ^ 32
  let voltDiff := (voltEnd + 2 ^ 32 - voltStart) % 2 ^ 32
  let percentDiff := percentEnd - percentStart
  let percentOffset := voltOffset * uint32ofInt percentDiff % 2 ^ 32 / voltDiff
  int8ofUint32 ((percentOffset + uint32ofInt percentStart) % 2 ^ 32)

/-- Embedding of `batteryApproximation.approximate` with the six-iteration
`range` loop unrolled (the `i = 0` interpolation branch is unreachable, see
`segment`). -/
def batteryApproximation.approximate (approx : batteryApproximation)
    (microvolts : Nat) : Int :=
  if microvolts ≤ approx.voltages 0 * 1000 then 0 -- below the lowest value
  else if approx.voltages 1 * 1000 > microvolts then approx.segment 1 microvolts
  else if approx.voltages 2 * 1000 > microvolts then approx.segment 2 microvolts
  else if approx.voltages 3 * 1000 > microvolts then approx.segment 3 microvolts
  else if approx.voltages 4 * 1000 > microvolts then approx.segment 4 microvolts
  else if approx.voltages 5 * 1000 > microvolts then approx.segment 5 microvolts
  else 100 -- outside the table, so must be 100%

/-- Body of the `range` loop of `approximatePPM` at index `i` (here
`voltStart`/`voltEnd`/`voltDiff` are in millivolts, `voltOffset` in
microvolts; Go multiplications associate left, each wrapping on `uint32`). -/
def batteryApproximation.segmentPPM (approx : batteryApproximation) (i : Nat)
    (microvolts : Nat) : Int :=
  let voltStart := approx.voltages (i - 1)
  let voltEnd := approx.voltages i
  let percentStart := approx.percents (i - 1)
  let percentEnd := approx.percents i
  let voltOffset := (microvolts + 2 ^ 32 - voltStart * 1000 % 2 ^ 32) % 2 ^ 32
  let voltDiff := (voltEnd + 2 ^ 32 - voltStart) % 2 ^ 32
  let percentDiff := percentEnd - percentStart
  let percentOffset := voltOffset * uint32ofInt percentDiff % 2 ^ 32 * 10 % 2 ^ 32 / voltDiff
  wrapInt32 (percentStart * 10000 + int32ofUint32 percentOffset)

/-- Embedding of `batteryApproximation.approximatePPM` (parts-per-million
variant), loop unrolled exactly like `approximate`. -/
def batteryApproximation.approximatePPM (approx : batteryApproximation)
    (microvolts : Nat) : Int :=
  if microvolts ≤ approx.voltages 0 * 1000 then 0 -- below the lowest value
  else if approx.voltages 1 * 1000 > microvolts then approx.segmentPPM 1 microvolts
  else if approx.voltages 2 * 1000 > microvolts then approx.segmentPPM 2 microvolts
  else if approx.voltages 3 * 1000 > microvolts then approx.segmentPPM 3 microvolts
  else if approx.voltages 4 * 1000 > microvolts then approx.segmentPPM 4 microvolts
  else if approx.voltages 5 * 1000 > microvolts then approx.segmentPPM 5 microvolts
  else 1000000 -- outside the table, so must be 100%

/-! ## Touch-screen filters (src touch file, PyPortal)

`medianFilter` is a Go `[5]int` shift register; `value` extracts the median
through a fixed 9-comparator sorting network.  `iirFilter` is a one-pole
smoother; Go `/` on `int` truncates toward zero (`Int.tdiv`). -/

/-- Shift register of the 5 most recent samples (`type medianFilter [5]int`);
`f0` is the oldest slot `f[0]`, `f4` the newest slot `f[4]`. -/
structure medianFilter where
  f0 : Int
  f1 : Int
  f2 : Int
  f3 : Int
  f4 : Int

/-- Embedding of `medianFilter.add`: shift the value into the array. -/
def medianFilter.add (f : medianFilter) (n : Int) : medianFilter :=
  ⟨f.f1, f.f2, f.f3, f.f4, n⟩

/-- The `compareSwap` closure of `medianFilter.value` (the Go function swaps
through pointers; embedded as a pair transformer). -/
def compareSwap (p : Int × Int) : Int × Int :=
  if p.1 > p.2 then (p.2, p.1) else p

/-- Embedding of `medianFilter.value`: the nine compare-swaps, in source
order, on array positions (1,4) (0,3) (1,3) (0,2) (2,4) (0,1) (1,2) (3,4)
(2,3); the returned value is the final slot 2.  Each `s`-binding holds the
updated contents of the two array slots its comparator touched. -/
def medianFilter.value (f : medianFilter) : Int :=
  let s14 := compareSwap (f.f1, f.f4)
  let s03 := compareSwap (f.f0, f.f3)
  let s13 := compareSwap (s14.1, s03.2)
  let s02 := compareSwap (s03.1, f.f2)
  let s24 := compareSwap (s02.2, s14.2)
  let s01 := compareSwap (s02.1, s13.1)
  let s12 := compareSwap (s01.2, s24.1)
  let s34 := compareSwap (s13.2, s24.2)
  let s23 := compareSwap (s12.2, s34.1)
  s23.1

/-- Proof-side companion of `medianFilter.value`: the same network, returning
all five final slots (positions 0..4) instead of only slot 2. -/
def medianFilter.sortedNetwork (f : medianFilter) : Int × Int × Int × Int × Int :=
  let s14 := compareSwap (f.f1, f.f4)
  let s03 := compareSwap (f.f0, f.f3)
  let s13 := compareSwap (s14.1, s03.2)
  let s02 := compareSwap (s03.1, f.f2)
  let s24 := compareSwap (s02.2, s14.2)
  let s01 := compareSwap (s02.1, s13.1)
  let s12 := compareSwap (s01.2, s24.1)
  let s34 := compareSwap (s13.2, s24.2)
  let s23 := compareSwap (s12.2, s34.1)
  (s01.1, s12.1, s23.1, s23.2, s34.2)

/-- Feed a whole list of samples into a median filter, oldest first. -/
def medianFilter.addAll (f : medianFilter) : List Int → medianFilter
  | [] => f
  | x :: xs => (f.add x).addAll xs

/-- Reference definition, following the spec's words: the true median of five
values is the third element (index 2) of the list sorted ascending, ties
included. -/
def trueMedianOfFive (xs : List Int) : Int :=
  (List.insertionSort (fun a b => a ≤ b) xs).getD 2 0

/-- Infinite impulse response filter (`type iirFilter struct { state int }`). -/
structure iirFilter where
  state : Int

/-- Embedding of `iirFilter.add`: on reset the state is first overwritten with
`x`; in every case the state then becomes `(state + x + 1) / 2` with Go's
truncating division. -/
def iirFilter.add (f : iirFilter) (x : Int) (reset : Bool) : iirFilter :=
  let s := if reset then x else f.state
  ⟨Int.tdiv (s + x + 1) 2⟩

/-- Embedding of `iirFilter.value`. -/
def iirFilter.value (f : iirFilter) : Int := f.state

/-- Iterate `add x false` from a given filter state (for convergence claims
about repeated identical inputs). -/
def iirFilter.iterate (f : iirFilter) (x : Int) : Nat → iirFilter
  | 0 => f
  | n + 1 => (f.add x false).iterate x n

/-- Embedding of the Go `clamp` helper: map and clamp an input value to an
output range (Go `/` on `int` truncates toward zero). -/
def clamp (value lowIn highIn lowOut highOut : Int) : Int :=
  let rangeIn := highIn - lowIn
  let rangeOut := highOut - lowOut
  let valueOut := Int.tdiv ((value - lowIn) * rangeOut) rangeIn
  let valueOut := if valueOut > highOut then highOut else valueOut
  let valueOut := if valueOut < lowOut then lowOut else valueOut
  valueOut

/-- Go `int16(v)` conversion (wraparound). -/
def toInt16 (v : Int) : Int := (v + 2 ^ 15) % 2 ^ 16 - 2 ^ 15

/-! ## PyPortal touch input (src touch file)

`ReadTouch` polls the resistive touch driver.  The embedding passes the
driver's primary sample `point` explicitly, plus the four extra samples the
first-touch branch reads to prime the median filter, plus the current display
rotation (drivers.Rotation0/90/180/270 as 0..3; the `display == nil` case of
the Go code behaves like rotation 0). -/

/-- One raw sample from the resistive touch driver (`touch.Point`, Go ints). -/
structure DriverPoint where
  X : Int
  Y : Int
  Z : Int

/-- A single reported touch point: monotonically incremented `uint32` id (0
meaning no touch), pixel coordinates as `int16`. -/
structure TouchPoint where
  ID : Nat
  X : Int
  Y : Int

/-- The package-level mutable touch state of the PyPortal board file:
`touchPoints[0]`, the `touchID` counter, both median filters, both IIR
filters and the last reported raw-unit positions. -/
structure touchInputState where
  touchPoints0 : TouchPoint
  touchID : Nat
  medianFilterX : medianFilter
  medianFilterY : medianFilter
  iirFilterX : iirFilter
  iirFilterY : iirFilter
  lastPosX : Int
  lastPosY : Int

/-- Embedding of the PyPortal `touchInput.ReadTouch`.  Returns the reported
touch point (Go: `touchPoints[:1]` versus `nil`) and the updated package
state.  The post-branch tail of the Go function (hysteresis result storage,
clamping, rotation adjustment) is duplicated into both branches of the
first-touch test; the computations are identical to the source's single
tail. -/
def touchInput.ReadTouch (st : touchInputState)
    (point e1 e2 e3 e4 : DriverPoint) (rotation : Nat) :
    Option TouchPoint × touchInputState :=
  -- Values calibrated on the PyPortal (constants in the Go function).
  let xmin : Int := 54000
  let xmax : Int := 16000
  let ymin : Int := 48000
  let ymax : Int := 22000
  if point.Z > 8192 then
    let medX := st.medianFilterX.add point.X
    let medY := st.medianFilterY.add point.Y
    if st.touchPoints0.ID = 0 then
      -- First touch on the touch screen.
      let touchID := (st.touchID + 1) % 2 ^ 32
      -- Initialize the median filter at this point with some more samples.
      let medX := (((medX.add e1.X).add e2.X).add e3.X).add e4.X
      let medY := (((medY.add e1.Y).add e2.Y).add e3.Y).add e4.Y
      -- Reset the IIR filter, and use the position as-is.
      let iirX := st.iirFilterX.add medX.value true
      let iirY := st.iirFilterY.add medY.value true
      let posX := iirX.value
      let posY := iirY.value
      let x := toInt16 (clamp posX ymin ymax 0 239)
      let y := toInt16 (clamp posY xmin xmax 0 319)
      let xy := match rotation with
        | 1 => (y, 239 - x)
        | 2 => (239 - x, 319 - y)
        | 3 => (319 - y, x)
        | _ => (x, y)
      let pt : TouchPoint := ⟨touchID, xy.1, xy.2⟩
      (some pt,
        { touchPoints0 := pt, touchID := touchID,
          medianFilterX := medX, medianFilterY := medY,
          iirFilterX := iirX, iirFilterY := iirY,
          lastPosX := posX, lastPosY := posY })
    else
      -- New touch value while we were touching before.
      let iirX := st.iirFilterX.add medX.value false
      let iirY := st.iirFilterY.add medY.value false
      -- Use some hysteresis to avoid moving the point when it didn't
      -- actually move (diff = 400).
      let posX := st.lastPosX
      let posY := st.lastPosY
      let posX := if iirX.value > st.lastPosX + 400 then iirX.value - 400 else posX
      let posX := if iirX.value < st.lastPosX - 400 then iirX.value + 400 else posX
      let posY := if iirY.value > st.lastPosY + 400 then iirY.value - 400 else posY
      let posY := if iirY.value < st.lastPosY - 400 then iirY.value + 400 else posY
      let x := toInt16 (clamp posX ymin ymax 0 239)
      let y := toInt16 (clamp posY xmin xmax 0 319)
      let xy := match rotation with
        | 1 => (y, 239 - x)
        | 2 => (239 - x, 319 - y)
        | 3 => (319 - y, x)
        | _ => (x, y)
      let pt : TouchPoint := ⟨st.touchPoints0.ID, xy.1, xy.2⟩
      (some pt,
        { touchPoints0 := pt, touchID := st.touchID,
          medianFilterX := medX, medianFilterY := medY,
          iirFilterX := iirX, iirFilterY := iirY,
          lastPosX := posX, lastPosY := posY })
  else
    (none, { st with touchPoints0 := { st.touchPoints0 with ID := 0 } })

/-! ## PineTime touch input (board-pinetime file) -/

/-- Coordinate extraction and clamping of the PineTime `ReadTouch` given the
six bytes read from the touch controller (`touchData`, each < 256) and the
current `touchID`: `x`/`y` are 12-bit values from bytes 2/3 and 4/5; the
`x < 0` checks are kept although they can never fire on an unsigned value,
exactly like the Go code. -/
def pinetimeReadTouchPoint (touchData : Nat → Nat) (touchID : Nat) : TouchPoint :=
  let x := ((touchData 2 &&& 0xf) <<< 8) ||| touchData 3
  let y := ((touchData 4 &&& 0xf) <<< 8) ||| touchData 5
  let x := if x < 0 then 0 else x
  let x := if x ≥ 240 then 240 else x
  let y := if y < 0 then 0 else y
  let y := if y ≥ 240 then 240 else y
  ⟨touchID, toInt16 (x : Int), toInt16 (y : Int)⟩

/-! ## Battery gauge smoothing (spec-modelled)

Modelled from the spec: the EWMA-smoothing consumer of `approximatePPM` (the
battery gauge `Status` path with the fixed-point ppm accumulator and the
asymmetric percent hysteresis) is not among the source files of this snapshot
(`approximatePPM` has no caller here); the update rule below follows the
spec's words: `smoothed = (smoothed*255 + instantaneous)/256`, candidate
percent derived from the smoothed ppm value, and `last_percent` overwritten
only when the candidate is less than `last_percent` or greater than
`last_percent + 1`. -/

/-- Battery gauge smoothing state: fixed-point smoothed percent accumulator
(ppm) and the last externally reported integer percent. -/
structure BatteryGaugeState where
  smoothedPPM : Int
  lastPercent : Int

/-- Modelled from the spec: one `Status()` smoothing step, fed with the
instantaneous ppm value of the current voltage sample. -/
def BatteryGaugeState.update (g : BatteryGaugeState) (microvolts : Nat) : BatteryGaugeState :=
  let instantaneous := lithumBatteryApproximation.approximatePPM microvolts
  let smoothed := Int.tdiv (g.smoothedPPM * 255 + instantaneous) 256
  let candidate := Int.tdiv smoothed 10000
  if candidate < g.lastPercent ∨ candidate > g.lastPercent + 1 then
    ⟨smoothed, candidate⟩
  else
    ⟨smoothed, g.lastPercent⟩

/-! ## Bit-level lemmas -/

theorem popcount_unfold (n : Nat) : popcount n = popcount (n / 2) + n % 2 := by
  rw [popcount]
  split
  · rename_i h
    subst h
    simp [popcount]
  · rfl

theorem popcount_zero : popcount 0 = 0 := by simp [popcount]

theorem xor_mod_two (a b : Nat) : (a ^^^ b) % 2 = (a % 2 + b % 2) % 2 := by
  have h := Nat.testBit_xor a b 0
  simp only [Nat.testBit_zero] at h
  rcases Nat.mod_two_eq_zero_or_one a with h1 | h1 <;>
    rcases Nat.mod_two_eq_zero_or_one b with h2 | h2 <;>
      rcases Nat.mod_two_eq_zero_or_one (a ^^^ b) with h3 | h3 <;>
        simp [h1, h2, h3] at h ⊢

theorem xor_div_two (a b : Nat) : (a ^^^ b) / 2 = a / 2 ^^^ b / 2 := by
  apply Nat.eq_of_testBit_eq
  intro j
  simp [Nat.testBit_div_two, Nat.testBit_xor]

theorem popcount_xor_two_pow :
    ∀ i c : Nat, c.testBit i = true → popcount (c ^^^ 2 ^ i) + 1 = popcount c := by
  intro i
  induction i with
  | zero =>
    intro c hc
    simp only [Nat.testBit_zero, decide_eq_true_eq] at hc
    rw [popcount_unfold (c ^^^ 2 ^ 0), popcount_unfold c, xor_div_two, xor_mod_two]
    norm_num [hc]
  | succ i ih =>
    intro c hc
    rw [Nat.testBit_succ] at hc
    have e1 : (2 : Nat) ^ (i + 1) / 2 = 2 ^ i := by
      rw [pow_succ]
      exact Nat.mul_div_cancel _ (by norm_num)
    have e2 : (2 : Nat) ^ (i + 1) % 2 = 0 := by
      rw [pow_succ]
      exact Nat.mul_mod_left _ _
    rw [popcount_unfold (c ^^^ 2 ^ (i + 1)), popcount_unfold c, xor_div_two, xor_mod_two,
      e1, e2]
    have := ih (c / 2) hc
    rcases Nat.mod_two_eq_zero_or_one c with h1 | h1 <;> rw [h1] <;> omega

theorem popcount_pos (n : Nat) (h : n ≠ 0) : 1 ≤ popcount n := by
  induction n using Nat.strong_induction_on with
  | _ n ih =>
    rw [popcount_unfold]
    rcases Nat.mod_two_eq_zero_or_one n with h1 | h1
    · have hn2 : n / 2 ≠ 0 := by omega
      have := ih (n / 2) (by omega) hn2
      omega
    · omega

theorem popcount_le_of_lt_two_pow :
    ∀ k n : Nat, n < 2 ^ k → popcount n ≤ k := by
  intro k
  induction k with
  | zero =>
    intro n h
    interval_cases n
    simp [popcount_zero]
  | succ k ih =>
    intro n h
    rw [popcount_unfold]
    have h2 : (2 : Nat) ^ (k + 1) = 2 ^ k * 2 := pow_succ 2 k
    have := ih (n / 2) (by omega)
    omega

theorem trailingZeros_testBit :
    ∀ n : Nat, n ≠ 0 → n.testBit (trailingZeros n) = true := by
  intro n
  induction n using trailingZeros.induct with
  | case1 => simp
  | case2 n h0 h1 =>
    intro _
    rw [trailingZeros, if_neg h0, if_pos h1]
    simp [Nat.testBit_zero, h1]
  | case3 n h0 h1 ih =>
    intro _
    rw [trailingZeros, if_neg h0, if_neg h1]
    rw [Nat.testBit_succ]
    exact ih (by omega)

theorem trailingZeros_min :
    ∀ n j : Nat, j < trailingZeros n → n.testBit j = false := by
  intro n
  induction n using trailingZeros.induct with
  | case1 => simp
  | case2 n h0 h1 =>
    intro j hj
    rw [trailingZeros, if_neg h0, if_pos h1] at hj
    omega
  | case3 n h0 h1 ih =>
    intro j hj
    rw [trailingZeros, if_neg h0, if_neg h1] at hj
    match j with
    | 0 => simp [Nat.testBit_zero]; omega
    | j + 1 =>
      rw [Nat.testBit_succ]
      exact ih j (by omega)

theorem trailingZeros_lt_of_lt_two_pow (n k : Nat) (h0 : n ≠ 0) (hk : n < 2 ^ k) :
    trailingZeros n < k := by
  by_contra hge
  have hbit := trailingZeros_testBit n h0
  have : n < 2 ^ trailingZeros n :=
    lt_of_lt_of_le hk (Nat.pow_le_pow_right (by norm_num) (by omega))
  rw [Nat.testBit_lt_two_pow this] at hbit
  exact Bool.false_ne_true hbit

theorem testBit_lt_of_lt_two_pow (n k j : Nat) (hk : n < 2 ^ k)
    (hbit : n.testBit j = true) : j < k := by
  by_contra hge
  have : n < 2 ^ j := lt_of_lt_of_le hk (Nat.pow_le_pow_right (by norm_num) (by omega))
  rw [Nat.testBit_lt_two_pow this] at hbit
  exact Bool.false_ne_true hbit

/-! ## Key-event tracker lemmas (claims C1 and C10) -/

theorem NextEvent_of_ne (b : gbaButtons) (h : b.state ^^^ b.previousState ≠ 0) :
    b.NextEvent =
      (eventFor b.state (trailingZeros (b.state ^^^ b.previousState)),
        ⟨b.state,
          b.previousState ^^^ 2 ^ trailingZeros (b.state ^^^ b.previousState)⟩) := by
  simp only [gbaButtons.NextEvent, eventFor, if_neg h, Nat.one_shiftLeft]

theorem xor_two_pow_testBit_of_lowest (c i j : Nat) (hi : i = trailingZeros c)
    (hc : c ≠ 0) (hj : (c ^^^ 2 ^ i).testBit j = true) : i < j := by
  rcases Nat.lt_trichotomy j i with hlt | heq | hgt
  · rw [Nat.testBit_xor, trailingZeros_min c j (hi ▸ hlt),
      Nat.testBit_two_pow] at hj
    simp at hj
    omega
  · subst heq
    rw [Nat.testBit_xor, hi, trailingZeros_testBit c hc, Nat.testBit_two_pow] at hj
    simp at hj
  · exact hgt

theorem drainEvents_spec (fuel : Nat) :
    ∀ s p : Nat, s < 2 ^ 10 → p < 2 ^ 10 → popcount (s ^^^ p) ≤ fuel →
      (gbaButtons.drainEvents fuel ⟨s, p⟩).1.length = popcount (s ^^^ p) ∧
      (∀ x ∈ (gbaButtons.drainEvents fuel ⟨s, p⟩).1,
        (s ^^^ p).testBit x.1 = true ∧ x.2 = eventFor s x.1) ∧
      (gbaButtons.drainEvents fuel ⟨s, p⟩).1.Chain' (fun x y => x.1 < y.1) ∧
      (gbaButtons.drainEvents fuel ⟨s, p⟩).2 = ⟨s, s⟩ := by
  induction fuel with
  | zero =>
    intro s p hs hp hfuel
    have hc0 : s ^^^ p = 0 := by
      by_contra hne
      have := popcount_pos _ hne
      omega
    have hsp : s = p := Nat.xor_eq_zero.mp hc0
    subst hsp
    simp [gbaButtons.drainEvents, hc0, popcount_zero]
  | succ fuel ih =>
    intro s p hs hp hfuel
    by_cases hc0 : s ^^^ p = 0
    · have hsp : s = p := Nat.xor_eq_zero.mp hc0
      subst hsp
      simp [gbaButtons.drainEvents, hc0, popcount_zero]
    · -- One productive call, then induction on the remaining change mask.
      set i := trailingZeros (s ^^^ p) with hi
      have hbit : (s ^^^ p).testBit i = true := trailingZeros_testBit _ hc0
      have hilt : i < 10 :=
        trailingZeros_lt_of_lt_two_pow _ 10 hc0 (Nat.xor_lt_two_pow hs hp)
      have hpop := popcount_xor_two_pow i (s ^^^ p) hbit
      have hp2 : p ^^^ 2 ^ i < 2 ^ 10 := by
        refine Nat.xor_lt_two_pow hp ?_
        exact Nat.pow_lt_pow_right (by norm_num) hilt
      have hassoc : s ^^^ (p ^^^ 2 ^ i) = (s ^^^ p) ^^^ 2 ^ i := by
        rw [Nat.xor_assoc]
      have hrec := ih s (p ^^^ 2 ^ i) hs hp2 (by rw [hassoc]; omega)
      rw [hassoc] at hrec
      obtain ⟨hlen, hmem, hchain, hfinal⟩ := hrec
      have hstep : gbaButtons.drainEvents (fuel + 1) ⟨s, p⟩ =
          ((i, eventFor s i) :: (gbaButtons.drainEvents fuel ⟨s, p ^^^ 2 ^ i⟩).1,
            (gbaButtons.drainEvents fuel ⟨s, p ^^^ 2 ^ i⟩).2) := by
        rw [gbaButtons.drainEvents]
        simp only [if_neg hc0, NextEvent_of_ne ⟨s, p⟩ hc0]
      rw [hstep]
      refine ⟨by simpa using by omega, ?_, ?_, hfinal⟩
      · intro x hx0
        rcases List.mem_cons.mp hx0 with rfl | hx
        · exact ⟨hbit, rfl⟩
        · obtain ⟨hxb, hxe⟩ := hmem x hx
          have hxi : i < x.1 := xor_two_pow_testBit_of_lowest _ i x.1 hi hc0 hxb
          refine ⟨?_, hxe⟩
          rw [Nat.testBit_xor, Nat.testBit_two_pow] at hxb
          simpa [show ¬ i = x.1 by omega] using hxb
      · rw [List.chain'_cons']
        refine ⟨?_, hchain⟩
        intro y hy
        cases hhd : (gbaButtons.drainEvents fuel ⟨s, p ^^^ 2 ^ i⟩).1 with
        | nil =>
          rw [hhd] at hy
          simp at hy
        | cons z rest =>
          rw [hhd] at hy
          simp only [List.head?_cons, Option.mem_def, Option.some.injEq] at hy
          subst hy
          have hz := hmem z (by rw [hhd]; exact List.mem_cons_self _ _)
          exact xor_two_pow_testBit_of_lowest _ i z.1 hi hc0 hz.1

theorem keyReleased_eq : keyReleased = 2 ^ 15 := by decide

theorem codes_lt_two_pow (j : Nat) : codes j < 2 ^ 15 := by
  unfold codes
  split <;> norm_num

theorem codes_ne_zero (j : Nat) (hj : j < 10) : codes j ≠ 0 := by
  interval_cases j <;> decide

theorem eventFor_spec (s j : Nat) (hj : j < 10) :
    eventFor s j ≠ NoKeyEvent ∧
      (KeyEvent.Pressed (eventFor s j) = true ↔ s.testBit j = true) := by
  have hb15 : (codes j).testBit 15 = false :=
    Nat.testBit_lt_two_pow (codes_lt_two_pow j)
  have hk15 : keyReleased.testBit 15 = true := by decide
  rw [eventFor, Nat.one_shiftLeft, Nat.and_two_pow]
  by_cases hb : s.testBit j
  · rw [hb]
    have h2 : ¬ ((true : Bool).toNat * 2 ^ j = 0) := by
      have hpow : 1 ≤ 2 ^ j := Nat.one_le_two_pow
      simp only [Bool.toNat_true, one_mul]
      omega
    rw [if_neg h2]
    refine ⟨fun h0 => codes_ne_zero j hj h0, ?_⟩
    rw [KeyEvent.Pressed, keyReleased_eq, Nat.and_two_pow, hb15]
    simp [hb]
  · rw [Bool.not_eq_true] at hb
    rw [hb]
    simp only [Bool.toNat_false, Nat.zero_mul]
    rw [if_pos trivial]
    have hor : (codes j ||| keyReleased).testBit 15 = true := by
      rw [Nat.testBit_or, hb15, hk15]
      rfl
    constructor
    · intro h0
      have h15 : (codes j ||| keyReleased).testBit 15 = NoKeyEvent.testBit 15 := by
        rw [h0]
      rw [hor] at h15
      have hz15 : NoKeyEvent.testBit 15 = false := by decide
      rw [hz15] at h15
      exact absurd h15 (by decide)
    · have hand : (codes j ||| keyReleased) &&& keyReleased ≠ 0 := by
        intro hz
        have h15 : ((codes j ||| keyReleased) &&& keyReleased).testBit 15 =
            Nat.testBit 0 15 := by rw [hz]
        rw [Nat.testBit_and, hor, hk15, Nat.zero_testBit] at h15
        simp at h15
      rw [KeyEvent.Pressed]
      simp [hand, hb]

/-- Claim C1: with the sampled mask held fixed, repeated calls to `NextEvent`
return exactly `popcount (previousState ^^^ state)` non-`NoKeyEvent` events,
one per call, with strictly increasing bit indices, and the next call after
those returns `NoKeyEvent`; each event is a release exactly when the
corresponding bit of `state` is 0, and a press otherwise. -/
theorem nextEvent_drains_exactly_popcount_events (s p : Nat)
    (hs : s < 2 ^ 10) (hp : p < 2 ^ 10) :
    (gbaButtons.drainEvents 16 ⟨s, p⟩).1.length = popcount (s ^^^ p) ∧
    (gbaButtons.drainEvents 16 ⟨s, p⟩).1.Chain' (fun x y => x.1 < y.1) ∧
    (∀ x ∈ (gbaButtons.drainEvents 16 ⟨s, p⟩).1,
      x.2 ≠ NoKeyEvent ∧
        (KeyEvent.Pressed x.2 = false ↔ s.testBit x.1 = false)) ∧
    ((gbaButtons.drainEvents 16 ⟨s, p⟩).2.NextEvent).1 = NoKeyEvent := by
  have hxor : s ^^^ p < 2 ^ 10 := Nat.xor_lt_two_pow hs hp
  obtain ⟨hlen, hmem, hchain, hfinal⟩ :=
    drainEvents_spec 16 s p hs hp
      (le_trans (popcount_le_of_lt_two_pow 10 _ hxor) (by norm_num))
  refine ⟨hlen, hchain, ?_, ?_⟩
  · intro x hx
    obtain ⟨hxb, hxe⟩ := hmem x hx
    have hxlt : x.1 < 10 := testBit_lt_of_lt_two_pow _ 10 x.1 hxor hxb
    obtain ⟨hne, hiff⟩ := eventFor_spec s x.1 hxlt
    rw [hxe]
    refine ⟨hne, ?_⟩
    constructor
    · intro hpf
      cases hsb : s.testBit x.1
      · rfl
      · exact absurd (hiff.mpr hsb) (by simp [hpf])
    · intro hsb
      cases hpf : KeyEvent.Pressed (eventFor s x.1)
      · rfl
      · exact absurd (hiff.mp hpf) (by simp [hsb])
  · rw [hfinal]
    simp [gbaButtons.NextEvent, Nat.xor_self, NoKeyEvent]

theorem nextEvent_drains_exactly_popcount_events_witness :
    (gbaButtons.drainEvents 16 ⟨5, 3⟩).1.length = popcount (5 ^^^ 3) ∧
    (gbaButtons.drainEvents 16 ⟨5, 3⟩).1.Chain' (fun x y => x.1 < y.1) ∧
    (∀ x ∈ (gbaButtons.drainEvents 16 ⟨5, 3⟩).1,
      x.2 ≠ NoKeyEvent ∧
        (KeyEvent.Pressed x.2 = false ↔ Nat.testBit 5 x.1 = false)) ∧
    ((gbaButtons.drainEvents 16 ⟨5, 3⟩).2.NextEvent).1 = NoKeyEvent :=
  nextEvent_drains_exactly_popcount_events 5 3 (by decide) (by decide)

/-- Claim C10: `NextEvent` never modifies the sampled mask; when the two masks
agree it returns `NoKeyEvent` and changes nothing, and when they differ it
changes only `previousState`, toggling exactly the lowest-index bit of
`state ^^^ previousState` (which is a set bit of the change mask, with every
lower bit clear), so the popcount of the change mask decreases by exactly
one. -/
theorem nextEvent_frame_effect (b : gbaButtons) :
    (b.NextEvent).2.state = b.state ∧
    (b.state = b.previousState → b.NextEvent = (NoKeyEvent, b)) ∧
    (b.state ≠ b.previousState →
      (b.NextEvent).2.previousState =
        b.previousState ^^^ 2 ^ trailingZeros (b.state ^^^ b.previousState) ∧
      (b.state ^^^ b.previousState).testBit
        (trailingZeros (b.state ^^^ b.previousState)) = true ∧
      (∀ j < trailingZeros (b.state ^^^ b.previousState),
        (b.state ^^^ b.previousState).testBit j = false) ∧
      popcount ((b.NextEvent).2.state ^^^ (b.NextEvent).2.previousState) + 1 =
        popcount (b.state ^^^ b.previousState)) := by
  by_cases hc : b.state ^^^ b.previousState = 0
  · have hsp : b.state = b.previousState := Nat.xor_eq_zero.mp hc
    refine ⟨?_, ?_, ?_⟩
    · simp [gbaButtons.NextEvent, hc]
    · intro _
      simp [gbaButtons.NextEvent, hc]
    · intro hne
      exact absurd hsp hne
  · rw [NextEvent_of_ne b hc]
    refine ⟨rfl, ?_, ?_⟩
    · intro heq
      exact absurd (Nat.xor_eq_zero.mpr heq) hc
    · intro _
      refine ⟨rfl, trailingZeros_testBit _ hc, fun j hj => trailingZeros_min _ j hj, ?_⟩
      have hassoc : b.state ^^^ (b.previousState ^^^
          2 ^ trailingZeros (b.state ^^^ b.previousState)) =
          (b.state ^^^ b.previousState) ^^^
            2 ^ trailingZeros (b.state ^^^ b.previousState) := by
        rw [Nat.xor_assoc]
      rw [hassoc]
      exact popcount_xor_two_pow _ _ (trailingZeros_testBit _ hc)

theorem nextEvent_frame_effect_witness :
    (gbaButtons.NextEvent ⟨5, 3⟩).2.state = 5 ∧
    (gbaButtons.NextEvent ⟨5, 3⟩).2.previousState = 3 ^^^ 2 ^ trailingZeros (5 ^^^ 3) ∧
    popcount ((gbaButtons.NextEvent ⟨5, 3⟩).2.state ^^^
      (gbaButtons.NextEvent ⟨5, 3⟩).2.previousState) + 1 = popcount (5 ^^^ 3) := by
  have h := nextEvent_frame_effect ⟨5, 3⟩
  exact ⟨h.1, (h.2.2 (by decide)).1, (h.2.2 (by decide)).2.2.2⟩

/-! ## Battery approximation (claims C2 and C9) -/

/-- Claim C2: the reference test-table values of `approximate` on the lithium
discharge curve, with interpolation rounding toward zero (all values are
nonnegative here, so truncation is plain floor division). -/
theorem approximate_reference_values :
    lithumBatteryApproximation.approximate 2900000 = 0 ∧
    lithumBatteryApproximation.approximate 3500000 = 0 ∧
    lithumBatteryApproximation.approximate 3510000 = 1 ∧
    lithumBatteryApproximation.approximate 3528000 = 2 ∧
    lithumBatteryApproximation.approximate 3749999 = 49 ∧
    lithumBatteryApproximation.approximate 3750000 = 50 ∧
    lithumBatteryApproximation.approximate 4180000 = 100 ∧
    lithumBatteryApproximation.approximate 5000000 = 100 := by
  decide

theorem int_tdiv_natCast_10000 (n : Nat) :
    Int.tdiv (n : Int) (10000 : Int) = ((n / 10000 : Nat) : Int) := rfl

theorem lithum_segment_eval_1 (microvolts : Nat) (hlo : 3500000 < microvolts)
    (hhi : microvolts < 3600000) :
    lithumBatteryApproximation.segment 1 microvolts =
      (((microvolts - 3500000) * 10 / 100000 + 0 : Nat) : Int) := by
  simp only [batteryApproximation.segment, lithumBatteryApproximation,
    show uint32ofInt (10 - 0 : Int) = 10 from by decide,
    show uint32ofInt (0 : Int) = 0 from by decide,
    show ((3500 * 1000 : Nat) % 2 ^ 32) = 3500000 from by norm_num,
    show ((3600 * 1000 : Nat) % 2 ^ 32) = 3600000 from by norm_num,
    show (((3600000 : Nat) + 2 ^ 32 - 3500000) % 2 ^ 32) = 100000 from by norm_num]
  rw [show (microvolts + 2 ^ 32 - 3500000) % 2 ^ 32 = microvolts - 3500000 from by omega]
  rw [show (microvolts - 3500000) * 10 % 2 ^ 32 = (microvolts - 3500000) * 10 from by omega]
  rw [show ((microvolts - 3500000) * 10 / 100000 + 0) % 2 ^ 32 =
    (microvolts - 3500000) * 10 / 100000 + 0 from by omega]
  rw [int8ofUint32]
  rw [show ((microvolts - 3500000) * 10 / 100000 + 0) % 2 ^ 8 =
    (microvolts - 3500000) * 10 / 100000 + 0 from by omega]
  rw [if_pos (by omega)]

theorem lithum_segment_eval_2 (microvolts : Nat) (hlo : 3600000 ≤ microvolts)
    (hhi : microvolts < 3700000) :
    lithumBatteryApproximation.segment 2 microvolts =
      (((microvolts - 3600000) * 15 / 100000 + 10 : Nat) : Int) := by
  simp only [batteryApproximation.segment, lithumBatteryApproximation,
    show uint32ofInt (25 - 10 : Int) = 15 from by decide,
    show uint32ofInt (10 : Int) = 10 from by decide,
    show ((3600 * 1000 : Nat) % 2 ^ 32) = 3600000 from by norm_num,
    show ((3700 * 1000 : Nat) % 2 ^ 32) = 3700000 from by norm_num,
    show (((3700000 : Nat) + 2 ^ 32 - 3600000) % 2 ^ 32) = 100000 from by norm_num]
  rw [show (microvolts + 2 ^ 32 - 3600000) % 2 ^ 32 = microvolts - 3600000 from by omega]
  rw [show (microvolts - 3600000) * 15 % 2 ^ 32 = (microvolts - 3600000) * 15 from by omega]
  rw [show ((microvolts - 3600000) * 15 / 100000 + 10) % 2 ^ 32 =
    (microvolts - 3600000) * 15 / 100000 + 10 from by omega]
  rw [int8ofUint32]
  rw [show ((microvolts - 3600000) * 15 / 100000 + 10) % 2 ^ 8 =
    (microvolts - 3600000) * 15 / 100000 + 10 from by omega]
  rw [if_pos (by omega)]

theorem lithum_segment_eval_3 (microvolts : Nat) (hlo : 3700000 ≤ microvolts)
    (hhi : microvolts < 3750000) :
    lithumBatteryApproximation.segment 3 microvolts =
      (((microvolts - 3700000) * 25 / 50000 + 25 : Nat) : Int) := by
  simp only [batteryApproximation.segment, lithumBatteryApproximation,
    show uint32ofInt (50 - 25 : Int) = 25 from by decide,
    show uint32ofInt (25 : Int) = 25 from by decide,
    show ((3700 * 1000 : Nat) % 2 ^ 32) = 3700000 from by norm_num,
    show ((3750 * 1000 : Nat) % 2 ^ 32) = 3750000 from by norm_num,
    show (((3750000 : Nat) + 2 ^ 32 - 3700000) % 2 ^ 32) = 50000 from by norm_num]
  rw [show (microvolts + 2 ^ 32 - 3700000) % 2 ^ 32 = microvolts - 3700000 from by omega]
  rw [show (microvolts - 3700000) * 25 % 2 ^ 32 = (microvolts - 3700000) * 25 from by omega]
  rw [show ((microvolts - 3700000) * 25 / 50000 + 25) % 2 ^ 32 =
    (microvolts - 3700000) * 25 / 50000 + 25 from by omega]
  rw [int8ofUint32]
  rw [show ((microvolts - 3700000) * 25 / 50000 + 25) % 2 ^ 8 =
    (microvolts - 3700000) * 25 / 50000 + 25 from by omega]
  rw [if_pos (by omega)]

theorem lithum_segment_eval_4 (microvolts : Nat) (hlo : 3750000 ≤ microvolts)
    (hhi : microvolts < 3900000) :
    lithumBatteryApproximation.segment 4 microvolts =
      (((microvolts - 3750000) * 25 / 150000 + 50 : Nat) : Int) := by
  simp only [batteryApproximation.segment, lithumBatteryApproximation,
    show uint32ofInt (75 - 50 : Int) = 25 from by decide,
    show uint32ofInt (50 : Int) = 50 from by decide,
    show ((3750 * 1000 : Nat) % 2 ^ 32) = 3750000 from by norm_num,
    show ((3900 * 1000 : Nat) % 2 ^ 32) = 3900000 from by norm_num,
    show (((3900000 : Nat) + 2 ^ 32 - 3750000) % 2 ^ 32) = 150000 from by norm_num]
  rw [show (microvolts + 2 ^ 32 - 3750000) % 2 ^ 32 = microvolts - 3750000 from by omega]
  rw [show (microvolts - 3750000) * 25 % 2 ^ 32 = (microvolts - 3750000) * 25 from by omega]
  rw [show ((microvolts - 3750000) * 25 / 150000 + 50) % 2 ^ 32 =
    (microvolts - 3750000) * 25 / 150000 + 50 from by omega]
  rw [int8ofUint32]
  rw [show ((microvolts - 3750000) * 25 / 150000 + 50) % 2 ^ 8 =
    (microvolts - 3750000) * 25 / 150000 + 50 from by omega]
  rw [if_pos (by omega)]

theorem lithum_segment_eval_5 (microvolts : Nat) (hlo : 3900000 ≤ microvolts)
    (hhi : microvolts < 4180000) :
    lithumBatteryApproximation.segment 5 microvolts =
      (((microvolts - 3900000) * 25 / 280000 + 75 : Nat) : Int) := by
  simp only [batteryApproximation.segment, lithumBatteryApproximation,
    show uint32ofInt (100 - 75 : Int) = 25 from by decide,
    show uint32ofInt (75 : Int) = 75 from by decide,
    show ((3900 * 1000 : Nat) % 2 ^ 32) = 3900000 from by norm_num,
    show ((4180 * 1000 : Nat) % 2 ^ 32) = 4180000 from by norm_num,
    show (((4180000 : Nat) + 2 ^ 32 - 3900000) % 2 ^ 32) = 280000 from by norm_num]
  rw [show (microvolts + 2 ^ 32 - 3900000) % 2 ^ 32 = microvolts - 3900000 from by omega]
  rw [show (microvolts - 3900000) * 25 % 2 ^ 32 = (microvolts - 3900000) * 25 from by omega]
  rw [show ((microvolts - 3900000) * 25 / 280000 + 75) % 2 ^ 32 =
    (microvolts - 3900000) * 25 / 280000 + 75 from by omega]
  rw [int8ofUint32]
  rw [show ((microvolts - 3900000) * 25 / 280000 + 75) % 2 ^ 8 =
    (microvolts - 3900000) * 25 / 280000 + 75 from by omega]
  rw [if_pos (by omega)]

theorem lithum_segmentPPM_eval_1 (microvolts : Nat) (hlo : 3500000 < microvolts)
    (hhi : microvolts < 3600000) :
    lithumBatteryApproximation.segmentPPM 1 microvolts =
      ((0 + (microvolts - 3500000) * 10 * 10 / 100 : Nat) : Int) := by
  simp only [batteryApproximation.segmentPPM, lithumBatteryApproximation,
    show uint32ofInt (10 - 0 : Int) = 10 from by decide,
    show ((3500 * 1000 : Nat) % 2 ^ 32) = 3500000 from by norm_num,
    show (((3600 : Nat) + 2 ^ 32 - 3500) % 2 ^ 32) = 100 from by norm_num]
  rw [show (microvolts + 2 ^ 32 - 3500000) % 2 ^ 32 = microvolts - 3500000 from by omega]
  rw [show (microvolts - 3500000) * 10 % 2 ^ 32 = (microvolts - 3500000) * 10 from by omega]
  rw [show (microvolts - 3500000) * 10 * 10 % 2 ^ 32 =
    (microvolts - 3500000) * 10 * 10 from by omega]
  rw [int32ofUint32]
  rw [show (microvolts - 3500000) * 10 * 10 / 100 % 2 ^ 32 =
    (microvolts - 3500000) * 10 * 10 / 100 from by omega]
  rw [if_pos (by omega), wrapInt32]
  omega

theorem lithum_segmentPPM_eval_2 (microvolts : Nat) (hlo : 3600000 ≤ microvolts)
    (hhi : microvolts < 3700000) :
    lithumBatteryApproximation.segmentPPM 2 microvolts =
      ((100000 + (microvolts - 3600000) * 15 * 10 / 100 : Nat) : Int) := by
  simp only [batteryApproximation.segmentPPM, lithumBatteryApproximation,
    show uint32ofInt (25 - 10 : Int) = 15 from by decide,
    show ((3600 * 1000 : Nat) % 2 ^ 32) = 3600000 from by norm_num,
    show (((3700 : Nat) + 2 ^ 32 - 3600) % 2 ^ 32) = 100 from by norm_num]
  rw [show (microvolts + 2 ^ 32 - 3600000) % 2 ^ 32 = microvolts - 3600000 from by omega]
  rw [show (microvolts - 3600000) * 15 % 2 ^ 32 = (microvolts - 3600000) * 15 from by omega]
  rw [show (microvolts - 3600000) * 15 * 10 % 2 ^ 32 =
    (microvolts - 3600000) * 15 * 10 from by omega]
  rw [int32ofUint32]
  rw [show (microvolts - 3600000) * 15 * 10 / 100 % 2 ^ 32 =
    (microvolts - 3600000) * 15 * 10 / 100 from by omega]
  rw [if_pos (by omega), wrapInt32]
  omega

theorem lithum_segmentPPM_eval_3 (microvolts : Nat) (hlo : 3700000 ≤ microvolts)
    (hhi : microvolts < 3750000) :
    lithumBatteryApproximation.segmentPPM 3 microvolts =
      ((250000 + (microvolts - 3700000) * 25 * 10 / 50 : Nat) : Int) := by
  simp only [batteryApproximation.segmentPPM, lithumBatteryApproximation,
    show uint32ofInt (50 - 25 : Int) = 25 from by decide,
    show ((3700 * 1000 : Nat) % 2 ^ 32) = 3700000 from by norm_num,
    show (((3750 : Nat) + 2 ^ 32 - 3700) % 2 ^ 32) = 50 from by norm_num]
  rw [show (microvolts + 2 ^ 32 - 3700000) % 2 ^ 32 = microvolts - 3700000 from by omega]
  rw [show (microvolts - 3700000) * 25 % 2 ^ 32 = (microvolts - 3700000) * 25 from by omega]
  rw [show (microvolts - 3700000) * 25 * 10 % 2 ^ 32 =
    (microvolts - 3700000) * 25 * 10 from by omega]
  rw [int32ofUint32]
  rw [show (microvolts - 3700000) * 25 * 10 / 50 % 2 ^ 32 =
    (microvolts - 3700000) * 25 * 10 / 50 from by omega]
  rw [if_pos (by omega), wrapInt32]
  omega

theorem lithum_segmentPPM_eval_4 (microvolts : Nat) (hlo : 3750000 ≤ microvolts)
    (hhi : microvolts < 3900000) :
    lithumBatteryApproximation.segmentPPM 4 microvolts =
      ((500000 + (microvolts - 3750000) * 25 * 10 / 150 : Nat) : Int) := by
  simp only [batteryApproximation.segmentPPM, lithumBatteryApproximation,
    show uint32ofInt (75 - 50 : Int) = 25 from by decide,
    show ((3750 * 1000 : Nat) % 2 ^ 32) = 3750000 from by norm_num,
    show (((3900 : Nat) + 2 ^ 32 - 3750) % 2 ^ 32) = 150 from by norm_num]
  rw [show (microvolts + 2 ^ 32 - 3750000) % 2 ^ 32 = microvolts - 3750000 from by omega]
  rw [show (microvolts - 3750000) * 25 % 2 ^ 32 = (microvolts - 3750000) * 25 from by omega]
  rw [show (microvolts - 3750000) * 25 * 10 % 2 ^ 32 =
    (microvolts - 3750000) * 25 * 10 from by omega]
  rw [int32ofUint32]
  rw [show (microvolts - 3750000) * 25 * 10 / 150 % 2 ^ 32 =
    (microvolts - 3750000) * 25 * 10 / 150 from by omega]
  rw [if_pos (by omega), wrapInt32]
  omega

theorem lithum_segmentPPM_eval_5 (microvolts : Nat) (hlo : 3900000 ≤ microvolts)
    (hhi : microvolts < 4180000) :
    lithumBatteryApproximation.segmentPPM 5 microvolts =
      ((750000 + (microvolts - 3900000) * 25 * 10 / 280 : Nat) : Int) := by
  simp only [batteryApproximation.segmentPPM, lithumBatteryApproximation,
    show uint32ofInt (100 - 75 : Int) = 25 from by decide,
    show ((3900 * 1000 : Nat) % 2 ^ 32) = 3900000 from by norm_num,
    show (((4180 : Nat) + 2 ^ 32 - 3900) % 2 ^ 32) = 280 from by norm_num]
  rw [show (microvolts + 2 ^ 32 - 3900000) % 2 ^ 32 = microvolts - 3900000 from by omega]
  rw [show (microvolts - 3900000) * 25 % 2 ^ 32 = (microvolts - 3900000) * 25 from by omega]
  rw [show (microvolts - 3900000) * 25 * 10 % 2 ^ 32 =
    (microvolts - 3900000) * 25 * 10 from by omega]
  rw [int32ofUint32]
  rw [show (microvolts - 3900000) * 25 * 10 / 280 % 2 ^ 32 =
    (microvolts - 3900000) * 25 * 10 / 280 from by omega]
  rw [if_pos (by omega), wrapInt32]
  omega

/-- Claim C9: over the whole `uint32` range, `approximate` equals
`approximatePPM` divided by 10000 (integer division); both are 0 at or below
the first breakpoint, 100 percent (1000000 ppm) at or above the last one, and
both always lie in the range 0..100 percent (0..1000000 ppm). -/
theorem approximate_refines_approximatePPM (microvolts : Nat)
    (h : microvolts < 2 ^ 32) :
    lithumBatteryApproximation.approximate microvolts =
      Int.tdiv (lithumBatteryApproximation.approximatePPM microvolts) 10000 ∧
    (microvolts ≤ 3500 * 1000 →
      lithumBatteryApproximation.approximate microvolts = 0 ∧
      lithumBatteryApproximation.approximatePPM microvolts = 0) ∧
    (4180 * 1000 ≤ microvolts →
      lithumBatteryApproximation.approximate microvolts = 100 ∧
      lithumBatteryApproximation.approximatePPM microvolts = 1000000) ∧
    0 ≤ lithumBatteryApproximation.approximate microvolts ∧
    lithumBatteryApproximation.approximate microvolts ≤ 100 ∧
    0 ≤ lithumBatteryApproximation.approximatePPM microvolts ∧
    lithumBatteryApproximation.approximatePPM microvolts ≤ 1000000 := by
  have happrox := batteryApproximation.approximate.eq_1 lithumBatteryApproximation microvolts
  have hppm := batteryApproximation.approximatePPM.eq_1 lithumBatteryApproximation microvolts
  have hv0 : lithumBatteryApproximation.voltages 0 = 3500 := rfl
  have hv1 : lithumBatteryApproximation.voltages 1 = 3600 := rfl
  have hv2 : lithumBatteryApproximation.voltages 2 = 3700 := rfl
  have hv3 : lithumBatteryApproximation.voltages 3 = 3750 := rfl
  have hv4 : lithumBatteryApproximation.voltages 4 = 3900 := rfl
  have hv5 : lithumBatteryApproximation.voltages 5 = 4180 := rfl
  rw [hv0, hv1, hv2, hv3, hv4, hv5] at happrox
  rw [hv0, hv1, hv2, hv3, hv4, hv5] at hppm
  by_cases h1 : microvolts ≤ 3500 * 1000
  · rw [if_pos h1] at happrox hppm
    rw [happrox, hppm]
    refine ⟨by decide, fun _ => ⟨rfl, rfl⟩, fun hc => absurd hc (by omega), by omega⟩
  · by_cases h2 : microvolts < 3600 * 1000
    · rw [if_neg h1, if_pos (by omega : 3600 * 1000 > microvolts)] at happrox hppm
      rw [happrox, hppm, lithum_segment_eval_1 microvolts (by omega) (by omega),
        lithum_segmentPPM_eval_1 microvolts (by omega) (by omega), int_tdiv_natCast_10000]
      refine ⟨by push_cast; omega, fun hc => absurd hc (by omega),
        fun hc => absurd hc (by omega), by omega⟩
    · by_cases h3 : microvolts < 3700 * 1000
      · rw [if_neg h1, if_neg (by omega : ¬ 3600 * 1000 > microvolts),
          if_pos (by omega : 3700 * 1000 > microvolts)] at happrox hppm
        rw [happrox, hppm, lithum_segment_eval_2 microvolts (by omega) (by omega),
          lithum_segmentPPM_eval_2 microvolts (by omega) (by omega), int_tdiv_natCast_10000]
        refine ⟨by push_cast; omega, fun hc => absurd hc (by omega),
          fun hc => absurd hc (by omega), by omega⟩
      · by_cases h4 : microvolts < 3750 * 1000
        · rw [if_neg h1, if_neg (by omega : ¬ 3600 * 1000 > microvolts),
            if_neg (by omega : ¬ 3700 * 1000 > microvolts),
            if_pos (by omega : 3750 * 1000 > microvolts)] at happrox hppm
          rw [happrox, hppm, lithum_segment_eval_3 microvolts (by omega) (by omega),
            lithum_segmentPPM_eval_3 microvolts (by omega) (by omega), int_tdiv_natCast_10000]
          refine ⟨by push_cast; omega, fun hc => absurd hc (by omega),
            fun hc => absurd hc (by omega), by omega⟩
        · by_cases h5 : microvolts < 3900 * 1000
          · rw [if_neg h1, if_neg (by omega : ¬ 3600 * 1000 > microvolts),
              if_neg (by omega : ¬ 3700 * 1000 > microvolts),
              if_neg (by omega : ¬ 3750 * 1000 > microvolts),
              if_pos (by omega : 3900 * 1000 > microvolts)] at happrox hppm
            rw [happrox, hppm, lithum_segment_eval_4 microvolts (by omega) (by omega),
              lithum_segmentPPM_eval_4 microvolts (by omega) (by omega), int_tdiv_natCast_10000]
            refine ⟨by push_cast; omega, fun hc => absurd hc (by omega),
              fun hc => absurd hc (by omega), by omega⟩
          · by_cases h6 : microvolts < 4180 * 1000
            · rw [if_neg h1, if_neg (by omega : ¬ 3600 * 1000 > microvolts),
                if_neg (by omega : ¬ 3700 * 1000 > microvolts),
                if_neg (by omega : ¬ 3750 * 1000 > microvolts),
                if_neg (by omega : ¬ 3900 * 1000 > microvolts),
                if_pos (by omega : 4180 * 1000 > microvolts)] at happrox hppm
              rw [happrox, hppm, lithum_segment_eval_5 microvolts (by omega) (by omega),
                lithum_segmentPPM_eval_5 microvolts (by omega) (by omega), int_tdiv_natCast_10000]
              refine ⟨by push_cast; omega, fun hc => absurd hc (by omega),
                fun hc => absurd hc (by omega), by omega⟩
            · rw [if_neg h1, if_neg (by omega : ¬ 3600 * 1000 > microvolts),
                if_neg (by omega : ¬ 3700 * 1000 > microvolts),
                if_neg (by omega : ¬ 3750 * 1000 > microvolts),
                if_neg (by omega : ¬ 3900 * 1000 > microvolts),
                if_neg (by omega : ¬ 4180 * 1000 > microvolts)] at happrox hppm
              rw [happrox, hppm]
              refine ⟨by decide, fun hc => absurd hc (by omega), fun _ => ⟨rfl, rfl⟩,
                by omega⟩

theorem approximate_refines_approximatePPM_witness :
    lithumBatteryApproximation.approximate 3650000 =
      Int.tdiv (lithumBatteryApproximation.approximatePPM 3650000) 10000 ∧
    0 ≤ lithumBatteryApproximation.approximatePPM 3650000 ∧
    lithumBatteryApproximation.approximatePPM 3650000 ≤ 1000000 := by
  have h := approximate_refines_approximatePPM 3650000 (by decide)
  exact ⟨h.1, h.2.2.2.2.2.1, h.2.2.2.2.2.2⟩

/-! ## IIR filter (claim C7)

The update rule with Go division is `state := (state + x + 1) tdiv 2`.  On
reset the state is first set to `x`, so the post-reset state is
`(2x + 1) tdiv 2`: exactly `x` for nonnegative `x`, but not for negative `x`
(truncation toward zero).  Without reset the map has two fixed points, `x`
and `x + 1`: from below the state climbs to exactly `x`, from above it falls
only to `x + 1` and stays there. -/

theorem iir_tdiv2 (a : Int) (h : 0 ≤ a) : Int.tdiv a 2 = a / 2 :=
  Int.tdiv_eq_ediv h (by norm_num)

theorem iir_iterate_below (x : Int) (hx : 0 ≤ x) :
    ∀ (n : Nat) (s : Int), 0 ≤ s → s ≤ x → (x - s).toNat ≤ n →
      (iirFilter.iterate ⟨s⟩ x n).value = x := by
  intro n
  induction n with
  | zero =>
    intro s hs hsx hn
    have hsx2 : s = x := by omega
    subst hsx2
    rfl
  | succ n ih =>
    intro s hs hsx hn
    show (iirFilter.iterate (iirFilter.add ⟨s⟩ x false) x n).value = x
    have hstate : iirFilter.add ⟨s⟩ x false = ⟨Int.tdiv (s + x + 1) 2⟩ := rfl
    rw [hstate, iir_tdiv2 _ (by omega)]
    exact ih ((s + x + 1) / 2) (by omega) (by omega) (by omega)

theorem iir_iterate_above (x : Int) (hx : 0 ≤ x) :
    ∀ (n : Nat) (s : Int), x < s → (s - (x + 1)).toNat ≤ n →
      (iirFilter.iterate ⟨s⟩ x n).value = x + 1 := by
  intro n
  induction n with
  | zero =>
    intro s hxs hn
    have hsx2 : s = x + 1 := by omega
    subst hsx2
    rfl
  | succ n ih =>
    intro s hxs hn
    show (iirFilter.iterate (iirFilter.add ⟨s⟩ x false) x n).value = x + 1
    have hstate : iirFilter.add ⟨s⟩ x false = ⟨Int.tdiv (s + x + 1) 2⟩ := rfl
    rw [hstate, iir_tdiv2 _ (by omega)]
    exact ih ((s + x + 1) / 2) (by omega) (by omega)

/-- Counterexample to claim C7 as stated: a reset with the negative seed -1
leaves the filter at 0, not -1 (Go division truncates toward zero), and from
prior state 1 a call with input 0 does not move the value at all (1 is a
fixed point one above the input), so the filter does not converge to the
input from every prior state, nor does it move one step per call. -/
theorem iirFilter_claim_counterexample :
    (iirFilter.add ⟨37⟩ (-1) true).value ≠ -1 ∧
    (iirFilter.add ⟨1⟩ 0 false).value = 1 := by decide

/-- Claim C7 (amended): for every nonnegative seed x, add(x, true) makes
value() equal x exactly; and for nonnegative prior states, repeated
add(x, false) calls move the value strictly toward x at least one step per
call while it is outside the fixed-point pair (x and x + 1), converging to x
exactly when starting at or below x, and to x + 1 when starting above x. -/
theorem iirFilter_reset_exact_and_converges (x s : Int) (hx : 0 ≤ x) (hs : 0 ≤ s) :
    (iirFilter.add ⟨s⟩ x true).value = x ∧
    (s < x → s < (iirFilter.add ⟨s⟩ x false).value ∧
      (iirFilter.add ⟨s⟩ x false).value ≤ x) ∧
    (x + 1 < s → x + 1 ≤ (iirFilter.add ⟨s⟩ x false).value ∧
      (iirFilter.add ⟨s⟩ x false).value < s) ∧
    ((s = x ∨ s = x + 1) → (iirFilter.add ⟨s⟩ x false).value = s) ∧
    (s ≤ x → ∀ n : Nat, (x - s).toNat ≤ n → (iirFilter.iterate ⟨s⟩ x n).value = x) ∧
    (x < s → ∀ n : Nat, (s - (x + 1)).toNat ≤ n →
      (iirFilter.iterate ⟨s⟩ x n).value = x + 1) := by
  have hreset : (iirFilter.add ⟨s⟩ x true).value = Int.tdiv (x + x + 1) 2 := rfl
  have hfalse : (iirFilter.add ⟨s⟩ x false).value = Int.tdiv (s + x + 1) 2 := rfl
  refine ⟨?_, ?_, ?_, ?_, ?_, ?_⟩
  · rw [hreset, iir_tdiv2 _ (by omega)]
    omega
  · intro hlt
    rw [hfalse, iir_tdiv2 _ (by omega)]
    omega
  · intro hlt
    rw [hfalse, iir_tdiv2 _ (by omega)]
    omega
  · intro hfix
    rw [hfalse, iir_tdiv2 _ (by omega)]
    omega
  · intro hle n hn
    exact iir_iterate_below x hx n s hs hle hn
  · intro hgt n hn
    exact iir_iterate_above x hx n s hgt hn

theorem iirFilter_reset_exact_and_converges_witness :
    (iirFilter.add ⟨5⟩ 9 true).value = 9 ∧
    (iirFilter.iterate ⟨5⟩ 9 4).value = 9 ∧
    (iirFilter.iterate ⟨14⟩ 9 4).value = 10 := by
  have h1 := iirFilter_reset_exact_and_converges 9 5 (by decide) (by decide)
  have h2 := iirFilter_reset_exact_and_converges 9 14 (by decide) (by decide)
  exact ⟨h1.1, h1.2.2.2.2.1 (by decide) 4 (by decide),
    h2.2.2.2.2.2 (by decide) 4 (by decide)⟩

/-! ## Median-of-5 sorting network (claim C3)

The nine comparators of `medianFilter.value` form the optimal 9-comparator
sorting network for 5 inputs; the proofs below work over opaque values
related by the comparator equations (one variable per wire segment), then
instantiate them with the concrete min/max trees of the network. -/

theorem compareSwap_eq (x y : Int) :
    compareSwap (x, y) = (min x y, max x y) := by
  rw [compareSwap]
  split_ifs with h
  · rw [min_eq_right (by omega : y ≤ x), max_eq_left (by omega : y ≤ x)]
  · rw [min_eq_left (by omega : x ≤ y), max_eq_right (by omega : x ≤ y)]

theorem cons_minmax (x y : Int) (s : Multiset Int) :
    min x y ::ₘ max x y ::ₘ s = x ::ₘ y ::ₘ s := by
  rcases le_total x y with h | h
  · rw [min_eq_left h, max_eq_right h]
  · rw [min_eq_right h, max_eq_left h, Multiset.cons_swap]

theorem r_cdabe (a b c d e : Int) :
    ({a, b, c, d, e} : Multiset Int) = {c, d, a, b, e} := by
  refine Multiset.ext.mpr fun z => ?_
  simp only [Multiset.insert_eq_cons, Multiset.count_cons, Multiset.count_singleton]
  split_ifs <;> omega
theorem r_beacd (a b c d e : Int) :
    ({a, b, c, d, e} : Multiset Int) = {b, e, a, c, d} := by
  refine Multiset.ext.mpr fun z => ?_
  simp only [Multiset.insert_eq_cons, Multiset.count_cons, Multiset.count_singleton]
  split_ifs <;> omega
theorem r_ecabd (a b c d e : Int) :
    ({a, b, c, d, e} : Multiset Int) = {e, c, a, b, d} := by
  refine Multiset.ext.mpr fun z => ?_
  simp only [Multiset.insert_eq_cons, Multiset.count_cons, Multiset.count_singleton]
  split_ifs <;> omega
theorem r_eabcd (a b c d e : Int) :
    ({a, b, c, d, e} : Multiset Int) = {e, a, b, c, d} := by
  refine Multiset.ext.mpr fun z => ?_
  simp only [Multiset.insert_eq_cons, Multiset.count_cons, Multiset.count_singleton]
  split_ifs <;> omega
theorem r_ceabd (a b c d e : Int) :
    ({a, b, c, d, e} : Multiset Int) = {c, e, a, b, d} := by
  refine Multiset.ext.mpr fun z => ?_
  simp only [Multiset.insert_eq_cons, Multiset.count_cons, Multiset.count_singleton]
  split_ifs <;> omega
theorem r_cabde (a b c d e : Int) :
    ({a, b, c, d, e} : Multiset Int) = {c, a, b, d, e} := by
  refine Multiset.ext.mpr fun z => ?_
  simp only [Multiset.insert_eq_cons, Multiset.count_cons, Multiset.count_singleton]
  split_ifs <;> omega
theorem r_deabc (a b c d e : Int) :
    ({a, b, c, d, e} : Multiset Int) = {d, e, a, b, c} := by
  refine Multiset.ext.mpr fun z => ?_
  simp only [Multiset.insert_eq_cons, Multiset.count_cons, Multiset.count_singleton]
  split_ifs <;> omega
theorem r_cbade (a b c d e : Int) :
    ({a, b, c, d, e} : Multiset Int) = {c, b, a, d, e} := by
  refine Multiset.ext.mpr fun z => ?_
  simp only [Multiset.insert_eq_cons, Multiset.count_cons, Multiset.count_singleton]
  split_ifs <;> omega
theorem r_caedb (a b c d e : Int) :
    ({a, b, c, d, e} : Multiset Int) = {c, a, e, d, b} := by
  refine Multiset.ext.mpr fun z => ?_
  simp only [Multiset.insert_eq_cons, Multiset.count_cons, Multiset.count_singleton]
  split_ifs <;> omega

theorem network_sorted_gen
    (f0 f1 f2 f3 f4 a1 a4 b0 b3 c1 c3 d0 d2 e2 e4 g0 g1 h1 h2 i3 i4 j2 j3 : Int)
    (ha1 : a1 = min f1 f4)
    (ha4 : a4 = max f1 f4)
    (hb0 : b0 = min f0 f3)
    (hb3 : b3 = max f0 f3)
    (hc1 : c1 = min a1 b3)
    (hc3 : c3 = max a1 b3)
    (hd0 : d0 = min b0 f2)
    (hd2 : d2 = max b0 f2)
    (he2 : e2 = min d2 a4)
    (he4 : e4 = max d2 a4)
    (hg0 : g0 = min d0 c1)
    (hg1 : g1 = max d0 c1)
    (hh1 : h1 = min g1 e2)
    (hh2 : h2 = max g1 e2)
    (hi3 : i3 = min c3 e4)
    (hi4 : i4 = max c3 e4)
    (hj2 : j2 = min h2 i3)
    (hj3 : j3 = max h2 i3) :
    g0 ≤ h1 ∧ h1 ≤ j2 ∧ j2 ≤ j3 ∧ j3 ≤ i4 := by
  omega

theorem network_perm_gen
    (f0 f1 f2 f3 f4 a1 a4 b0 b3 c1 c3 d0 d2 e2 e4 g0 g1 h1 h2 i3 i4 j2 j3 : Int)
    (ha1 : a1 = min f1 f4)
    (ha4 : a4 = max f1 f4)
    (hb0 : b0 = min f0 f3)
    (hb3 : b3 = max f0 f3)
    (hc1 : c1 = min a1 b3)
    (hc3 : c3 = max a1 b3)
    (hd0 : d0 = min b0 f2)
    (hd2 : d2 = max b0 f2)
    (he2 : e2 = min d2 a4)
    (he4 : e4 = max d2 a4)
    (hg0 : g0 = min d0 c1)
    (hg1 : g1 = max d0 c1)
    (hh1 : h1 = min g1 e2)
    (hh2 : h2 = max g1 e2)
    (hi3 : i3 = min c3 e4)
    (hi4 : i4 = max c3 e4)
    (hj2 : j2 = min h2 i3)
    (hj3 : j3 = max h2 i3) :
    ({g0, h1, j2, j3, i4} : Multiset Int) = {f0, f1, f2, f3, f4} := by
  calc ({g0, h1, j2, j3, i4} : Multiset Int)
      = {j2, j3, g0, h1, i4} := r_cdabe g0 h1 j2 j3 i4
    _ = {h2, i3, g0, h1, i4} := by rw [hj2, hj3]; exact cons_minmax h2 i3 _
    _ = {i3, i4, h2, g0, h1} := r_beacd h2 i3 g0 h1 i4
    _ = {c3, e4, h2, g0, h1} := by rw [hi3, hi4]; exact cons_minmax c3 e4 _
    _ = {h1, h2, c3, e4, g0} := r_ecabd c3 e4 h2 g0 h1
    _ = {g1, e2, c3, e4, g0} := by rw [hh1, hh2]; exact cons_minmax g1 e2 _
    _ = {g0, g1, e2, c3, e4} := r_eabcd g1 e2 c3 e4 g0
    _ = {d0, c1, e2, c3, e4} := by rw [hg0, hg1]; exact cons_minmax d0 c1 _
    _ = {e2, e4, d0, c1, c3} := r_ceabd d0 c1 e2 c3 e4
    _ = {d2, a4, d0, c1, c3} := by rw [he2, he4]; exact cons_minmax d2 a4 _
    _ = {d0, d2, a4, c1, c3} := r_cabde d2 a4 d0 c1 c3
    _ = {b0, f2, a4, c1, c3} := by rw [hd0, hd2]; exact cons_minmax b0 f2 _
    _ = {c1, c3, b0, f2, a4} := r_deabc b0 f2 a4 c1 c3
    _ = {a1, b3, b0, f2, a4} := by rw [hc1, hc3]; exact cons_minmax a1 b3 _
    _ = {b0, b3, a1, f2, a4} := r_cbade a1 b3 b0 f2 a4
    _ = {f0, f3, a1, f2, a4} := by rw [hb0, hb3]; exact cons_minmax f0 f3 _
    _ = {a1, a4, f0, f3, f2} := r_ceabd f0 f3 a1 f2 a4
    _ = {f1, f4, f0, f3, f2} := by rw [ha1, ha4]; exact cons_minmax f1 f4 _
    _ = {f0, f1, f2, f3, f4} := r_caedb f1 f4 f0 f3 f2

theorem sortedNetwork_eq (f : medianFilter) :
    f.sortedNetwork =
      (min (min (min (f.f0) (f.f3)) (f.f2)) (min (min (f.f1) (f.f4)) (max (f.f0) (f.f3))), min (max (min (min (f.f0) (f.f3)) (f.f2)) (min (min (f.f1) (f.f4)) (max (f.f0) (f.f3)))) (min (max (min (f.f0) (f.f3)) (f.f2)) (max (f.f1) (f.f4))),
        min (max (max (min (min (f.f0) (f.f3)) (f.f2)) (min (min (f.f1) (f.f4)) (max (f.f0) (f.f3)))) (min (max (min (f.f0) (f.f3)) (f.f2)) (max (f.f1) (f.f4)))) (min (max (min (f.f1) (f.f4)) (max (f.f0) (f.f3))) (max (max (min (f.f0) (f.f3)) (f.f2)) (max (f.f1) (f.f4)))),
        max (max (max (min (min (f.f0) (f.f3)) (f.f2)) (min (min (f.f1) (f.f4)) (max (f.f0) (f.f3)))) (min (max (min (f.f0) (f.f3)) (f.f2)) (max (f.f1) (f.f4)))) (min (max (min (f.f1) (f.f4)) (max (f.f0) (f.f3))) (max (max (min (f.f0) (f.f3)) (f.f2)) (max (f.f1) (f.f4)))),
        max (max (min (f.f1) (f.f4)) (max (f.f0) (f.f3))) (max (max (min (f.f0) (f.f3)) (f.f2)) (max (f.f1) (f.f4)))) := by
  simp only [medianFilter.sortedNetwork, compareSwap_eq]

theorem sortedNetwork_sorted (f : medianFilter) :
    (f.sortedNetwork).1 ≤ (f.sortedNetwork).2.1 ∧
    (f.sortedNetwork).2.1 ≤ (f.sortedNetwork).2.2.1 ∧
    (f.sortedNetwork).2.2.1 ≤ (f.sortedNetwork).2.2.2.1 ∧
    (f.sortedNetwork).2.2.2.1 ≤ (f.sortedNetwork).2.2.2.2 := by
  rw [sortedNetwork_eq]
  exact network_sorted_gen f.f0 f.f1 f.f2 f.f3 f.f4 _ _ _ _ _ _ _ _ _ _ _ _ _ _ _ _ _ _
    rfl rfl rfl rfl rfl rfl rfl rfl rfl rfl rfl rfl rfl rfl rfl rfl rfl rfl

theorem sortedNetwork_perm (f : medianFilter) :
    List.Perm
      [(f.sortedNetwork).1, (f.sortedNetwork).2.1, (f.sortedNetwork).2.2.1,
        (f.sortedNetwork).2.2.2.1, (f.sortedNetwork).2.2.2.2]
      [f.f0, f.f1, f.f2, f.f3, f.f4] := by
  rw [← Multiset.coe_eq_coe]
  show ({(f.sortedNetwork).1, (f.sortedNetwork).2.1, (f.sortedNetwork).2.2.1,
      (f.sortedNetwork).2.2.2.1, (f.sortedNetwork).2.2.2.2} : Multiset Int) =
    {f.f0, f.f1, f.f2, f.f3, f.f4}
  rw [sortedNetwork_eq]
  exact network_perm_gen f.f0 f.f1 f.f2 f.f3 f.f4 _ _ _ _ _ _ _ _ _ _ _ _ _ _ _ _ _ _
    rfl rfl rfl rfl rfl rfl rfl rfl rfl rfl rfl rfl rfl rfl rfl rfl rfl rfl

theorem addAll_last_five :
    ∀ l : List Int, 5 ≤ l.length → ∀ f : medianFilter,
      l.drop (l.length - 5) =
        [(f.addAll l).f0, (f.addAll l).f1, (f.addAll l).f2,
          (f.addAll l).f3, (f.addAll l).f4] := by
  intro l
  induction l with
  | nil => intro h; simp at h
  | cons x xs ih =>
    intro hlen f
    by_cases h5 : 5 ≤ xs.length
    · have hdrop : (x :: xs).drop ((x :: xs).length - 5) =
          xs.drop (xs.length - 5) := by
        have : (x :: xs).length - 5 = (xs.length - 5) + 1 := by
          simp only [List.length_cons]
          omega
        rw [this, List.drop_succ_cons]
      rw [hdrop]
      exact ih h5 (f.add x)
    · rcases xs with _ | ⟨a, xs⟩
      · simp only [List.length_cons, List.length_nil] at hlen
        omega
      rcases xs with _ | ⟨b, xs⟩
      · simp only [List.length_cons, List.length_nil] at hlen
        omega
      rcases xs with _ | ⟨c, xs⟩
      · simp only [List.length_cons, List.length_nil] at hlen
        omega
      rcases xs with _ | ⟨d, xs⟩
      · simp only [List.length_cons, List.length_nil] at hlen
        omega
      rcases xs with _ | ⟨e, xs⟩
      · rfl
      · exfalso
        simp only [List.length_cons] at h5
        omega

theorem value_eq_sortedNetwork (f : medianFilter) :
    f.value = (f.sortedNetwork).2.2.1 := rfl

theorem sorted_five (t0 t1 t2 t3 t4 : Int) (h1 : t0 ≤ t1) (h2 : t1 ≤ t2)
    (h3 : t2 ≤ t3) (h4 : t3 ≤ t4) :
    List.Sorted (fun a b => a ≤ b) [t0, t1, t2, t3, t4] := by
  refine List.sorted_cons.mpr ⟨?_, List.sorted_cons.mpr ⟨?_, List.sorted_cons.mpr
    ⟨?_, List.sorted_cons.mpr ⟨?_, List.sorted_singleton _⟩⟩⟩⟩ <;>
    · intro b hb
      fin_cases hb <;> omega

theorem medianFilter_value_eq_true_median_of_buffer (g : medianFilter) :
    g.value = trueMedianOfFive [g.f0, g.f1, g.f2, g.f3, g.f4] := by
  obtain ⟨hs1, hs2, hs3, hs4⟩ := sortedNetwork_sorted g
  have hperm := sortedNetwork_perm g
  have hsorted : List.Sorted (fun a b => a ≤ b)
      [(g.sortedNetwork).1, (g.sortedNetwork).2.1, (g.sortedNetwork).2.2.1,
        (g.sortedNetwork).2.2.2.1, (g.sortedNetwork).2.2.2.2] :=
    sorted_five _ _ _ _ _ hs1 hs2 hs3 hs4
  have heq : [(g.sortedNetwork).1, (g.sortedNetwork).2.1, (g.sortedNetwork).2.2.1,
      (g.sortedNetwork).2.2.2.1, (g.sortedNetwork).2.2.2.2] =
      List.insertionSort (fun a b => a ≤ b) [g.f0, g.f1, g.f2, g.f3, g.f4] := by
    refine List.eq_of_perm_of_sorted ?_ hsorted (List.sorted_insertionSort _ _)
    exact hperm.trans (List.perm_insertionSort _ _).symm
  rw [value_eq_sortedNetwork, trueMedianOfFive, ← heq]
  rfl

/-- Claim C3: after at least five inputs have been fed to `add`, `value()`
equals the true median of the five most recent inputs (the third element of
the sorted five, ties included); the 9-comparator network places that median
at index 2 of the buffer for every input array (the buffer case is the
theorem with `l` of length exactly five). -/
theorem medianFilter_value_is_true_median (f : medianFilter) (l : List Int)
    (hlen : 5 ≤ l.length) :
    (f.addAll l).value = trueMedianOfFive (l.drop (l.length - 5)) := by
  rw [addAll_last_five l hlen f]
  exact medianFilter_value_eq_true_median_of_buffer (f.addAll l)

theorem medianFilter_value_is_true_median_witness :
    (medianFilter.addAll ⟨9, 9, 9, 9, 9⟩ [5, 1, 4, 2, 3]).value =
      trueMedianOfFive ([5, 1, 4, 2, 3].drop ([5, 1, 4, 2, 3].length - 5)) :=
  medianFilter_value_is_true_median ⟨9, 9, 9, 9, 9⟩ [5, 1, 4, 2, 3] (by decide)

/-! ## Touch input (claims C4, C5, C6) -/

theorem readTouch_release (st : touchInputState) (p e1 e2 e3 e4 : DriverPoint)
    (rot : Nat) (hZ : ¬ p.Z > 8192) :
    touchInput.ReadTouch st p e1 e2 e3 e4 rot =
      (none, { st with touchPoints0 := { st.touchPoints0 with ID := 0 } }) := by
  rw [touchInput.ReadTouch, if_neg hZ]

theorem readTouch_first (st : touchInputState) (p e1 e2 e3 e4 : DriverPoint)
    (rot : Nat) (hZ : p.Z > 8192) (hID : st.touchPoints0.ID = 0) :
    (touchInput.ReadTouch st p e1 e2 e3 e4 rot).2.touchPoints0.ID =
      (st.touchID + 1) % 2 ^ 32 ∧
    (touchInput.ReadTouch st p e1 e2 e3 e4 rot).2.touchID =
      (st.touchID + 1) % 2 ^ 32 ∧
    (∃ pt, (touchInput.ReadTouch st p e1 e2 e3 e4 rot).1 = some pt ∧
      pt.ID = (st.touchID + 1) % 2 ^ 32) := by
  rw [touchInput.ReadTouch, if_pos hZ, if_pos hID]
  exact ⟨rfl, rfl, _, rfl, rfl⟩

theorem readTouch_cont (st : touchInputState) (p e1 e2 e3 e4 : DriverPoint)
    (rot : Nat) (hZ : p.Z > 8192) (hID : ¬ st.touchPoints0.ID = 0) :
    (touchInput.ReadTouch st p e1 e2 e3 e4 rot).2.touchPoints0.ID =
      st.touchPoints0.ID ∧
    (touchInput.ReadTouch st p e1 e2 e3 e4 rot).2.touchID = st.touchID ∧
    (∃ pt, (touchInput.ReadTouch st p e1 e2 e3 e4 rot).1 = some pt ∧
      pt.ID = st.touchPoints0.ID) := by
  rw [touchInput.ReadTouch, if_pos hZ, if_neg hID]
  exact ⟨rfl, rfl, _, rfl, rfl⟩

/-- Counterexample to claim C4 as stated: with an ongoing contact whose last
reported x position is 0, an IIR-filtered value of 1001 (median buffer full
of 2001, filter state 0) makes the reported position jump to 601 in a single
sample, moving more than 400 raw units. -/
theorem touch_hysteresis_counterexample :
    (touchInput.ReadTouch
      ⟨⟨1, 0, 0⟩, 1, ⟨2001, 2001, 2001, 2001, 2001⟩, ⟨0, 0, 0, 0, 0⟩, ⟨0⟩, ⟨0⟩, 0, 0⟩
      ⟨2001, 0, 9000⟩ ⟨2001, 0, 9000⟩ ⟨2001, 0, 9000⟩ ⟨2001, 0, 9000⟩ ⟨2001, 0, 9000⟩
      0).2.lastPosX = 601 ∧
    ¬ ((601 : Int) - 0 ≤ 400) := by decide

/-- Claim C4 (amended): on a Touching-to-Touching transition the reported
per-axis position does not chase the IIR-filtered value at a bounded rate;
instead it snaps directly to exactly 400 raw units short of the filtered
value whenever the filtered value is more than 400 units away from the last
reported position, and does not move at all when the filtered value is
within 400 units. -/
theorem touch_hysteresis_snaps_to_band (st : touchInputState)
    (p e1 e2 e3 e4 : DriverPoint) (rot : Nat)
    (hID : ¬ st.touchPoints0.ID = 0) (hZ : p.Z > 8192) :
    ((st.lastPosX - 400 ≤ (st.iirFilterX.add (st.medianFilterX.add p.X).value false).value →
      (st.iirFilterX.add (st.medianFilterX.add p.X).value false).value ≤ st.lastPosX + 400 →
      (touchInput.ReadTouch st p e1 e2 e3 e4 rot).2.lastPosX = st.lastPosX) ∧
     ((st.iirFilterX.add (st.medianFilterX.add p.X).value false).value > st.lastPosX + 400 →
      (touchInput.ReadTouch st p e1 e2 e3 e4 rot).2.lastPosX =
        (st.iirFilterX.add (st.medianFilterX.add p.X).value false).value - 400) ∧
     ((st.iirFilterX.add (st.medianFilterX.add p.X).value false).value < st.lastPosX - 400 →
      (touchInput.ReadTouch st p e1 e2 e3 e4 rot).2.lastPosX =
        (st.iirFilterX.add (st.medianFilterX.add p.X).value false).value + 400)) ∧
    ((st.lastPosY - 400 ≤ (st.iirFilterY.add (st.medianFilterY.add p.Y).value false).value →
      (st.iirFilterY.add (st.medianFilterY.add p.Y).value false).value ≤ st.lastPosY + 400 →
      (touchInput.ReadTouch st p e1 e2 e3 e4 rot).2.lastPosY = st.lastPosY) ∧
     ((st.iirFilterY.add (st.medianFilterY.add p.Y).value false).value > st.lastPosY + 400 →
      (touchInput.ReadTouch st p e1 e2 e3 e4 rot).2.lastPosY =
        (st.iirFilterY.add (st.medianFilterY.add p.Y).value false).value - 400) ∧
     ((st.iirFilterY.add (st.medianFilterY.add p.Y).value false).value < st.lastPosY - 400 →
      (touchInput.ReadTouch st p e1 e2 e3 e4 rot).2.lastPosY =
        (st.iirFilterY.add (st.medianFilterY.add p.Y).value false).value + 400)) := by
  rw [touchInput.ReadTouch, if_pos hZ, if_neg hID]
  refine ⟨⟨?_, ?_, ?_⟩, ⟨?_, ?_, ?_⟩⟩ <;> intros <;>
    simp only [] <;> split_ifs <;> first | rfl | omega

set_option maxHeartbeats 1000000 in
theorem touch_hysteresis_snaps_to_band_witness :
    (touchInput.ReadTouch
      ⟨⟨1, 0, 0⟩, 1, ⟨2001, 2001, 2001, 2001, 2001⟩, ⟨0, 0, 0, 0, 0⟩, ⟨0⟩, ⟨0⟩, 0, 0⟩
      ⟨2001, 0, 9000⟩ ⟨2001, 0, 9000⟩ ⟨2001, 0, 9000⟩ ⟨2001, 0, 9000⟩ ⟨2001, 0, 9000⟩
      0).2.lastPosX =
      ((⟨0⟩ : iirFilter).add ((⟨2001, 2001, 2001, 2001, 2001⟩ : medianFilter).add 2001).value
        false).value - 400 := by
  have h := touch_hysteresis_snaps_to_band
    ⟨⟨1, 0, 0⟩, 1, ⟨2001, 2001, 2001, 2001, 2001⟩, ⟨0, 0, 0, 0, 0⟩, ⟨0⟩, ⟨0⟩, 0, 0⟩
    ⟨2001, 0, 9000⟩ ⟨2001, 0, 9000⟩ ⟨2001, 0, 9000⟩ ⟨2001, 0, 9000⟩ ⟨2001, 0, 9000⟩
    0 (by decide) (by decide)
  exact h.1.2.1 (by decide)

/-- Claim C5 (code bug on the PineTime): a raw x coordinate of 300 (bytes
`touchData[2] = 1`, `touchData[3] = 44`) is clamped by `if x >= 240 { x = 240 }`
to 240, which equals the display width, so the reported X coordinate is NOT
inside the half-open rectangle `[0, 240)` the spec guarantees. -/
theorem pinetime_clamp_out_of_range :
    (pinetimeReadTouchPoint
      (fun i => if i = 2 then 1 else if i = 3 then 44 else 0) 1).X = 240 ∧
    ¬ ((pinetimeReadTouchPoint
      (fun i => if i = 2 then 1 else if i = 3 then 44 else 0) 1).X < 240) := by
  decide

set_option maxHeartbeats 1000000 in
/-- Claim C6: the contact lifecycle.  Starting idle (stored id 0, counter t),
a pressure sequence below, above, above, above, below yields: no point and
id 0 after the below sample; one new id `t+1` allocated at the first above
sample; the same non-zero id `t+1` reported by all three above samples; id 0
again after the final below sample with the counter still `t+1`; and a
further contact allocates `t+2`, so successive contact ids are strictly
increasing, starting from 1 when the counter starts at 0. -/
theorem touch_contact_lifecycle (st0 : touchInputState) (t : Nat)
    (q1 q2 q3 q4 q5 q6 e : DriverPoint) (rot : Nat)
    (r1 r2 r3 r4 r5 r6 : Option TouchPoint × touchInputState)
    (hID0 : st0.touchPoints0.ID = 0) (ht : st0.touchID = t)
    (hbound : t + 2 < 2 ^ 32)
    (h1 : ¬ q1.Z > 8192) (h2 : q2.Z > 8192) (h3 : q3.Z > 8192) (h4 : q4.Z > 8192)
    (h5 : ¬ q5.Z > 8192) (h6 : q6.Z > 8192)
    (hr1 : r1 = touchInput.ReadTouch st0 q1 e e e e rot)
    (hr2 : r2 = touchInput.ReadTouch r1.2 q2 e e e e rot)
    (hr3 : r3 = touchInput.ReadTouch r2.2 q3 e e e e rot)
    (hr4 : r4 = touchInput.ReadTouch r3.2 q4 e e e e rot)
    (hr5 : r5 = touchInput.ReadTouch r4.2 q5 e e e e rot)
    (hr6 : r6 = touchInput.ReadTouch r5.2 q6 e e e e rot) :
    (r1.1 = none ∧ r1.2.touchPoints0.ID = 0 ∧ r1.2.touchID = t) ∧
    ((∃ pt, r2.1 = some pt ∧ pt.ID = t + 1) ∧
      r2.2.touchPoints0.ID = t + 1 ∧ r2.2.touchID = t + 1) ∧
    ((∃ pt, r3.1 = some pt ∧ pt.ID = t + 1) ∧
      r3.2.touchPoints0.ID = t + 1 ∧ r3.2.touchID = t + 1) ∧
    ((∃ pt, r4.1 = some pt ∧ pt.ID = t + 1) ∧
      r4.2.touchPoints0.ID = t + 1 ∧ r4.2.touchID = t + 1) ∧
    (r5.1 = none ∧ r5.2.touchPoints0.ID = 0 ∧ r5.2.touchID = t + 1) ∧
    ((∃ pt, r6.1 = some pt ∧ pt.ID = t + 2) ∧ r6.2.touchID = t + 2) ∧
    0 < t + 1 ∧ t + 1 < t + 2 := by
  rw [readTouch_release st0 q1 e e e e rot h1] at hr1
  have h1a : r1.1 = none := by rw [hr1]
  have h1b : r1.2.touchPoints0.ID = 0 := by rw [hr1]
  have h1c : r1.2.touchID = t := by rw [hr1, ht]
  have hmod1 : (t + 1) % 2 ^ 32 = t + 1 := Nat.mod_eq_of_lt (by omega)
  have hmod2 : (t + 2) % 2 ^ 32 = t + 2 := Nat.mod_eq_of_lt (by omega)
  obtain ⟨h2a, h2b, pt2, h2c, h2d⟩ := readTouch_first r1.2 q2 e e e e rot h2 h1b
  rw [h1c, hmod1] at h2a h2b h2d
  rw [← hr2] at h2a h2b h2c
  obtain ⟨h3a, h3b, pt3, h3c, h3d⟩ :=
    readTouch_cont r2.2 q3 e e e e rot h3 (by rw [h2a]; omega)
  rw [h2a] at h3a h3d
  rw [h2b] at h3b
  rw [← hr3] at h3a h3b h3c
  obtain ⟨h4a, h4b, pt4, h4c, h4d⟩ :=
    readTouch_cont r3.2 q4 e e e e rot h4 (by rw [h3a]; omega)
  rw [h3a] at h4a h4d
  rw [h3b] at h4b
  rw [← hr4] at h4a h4b h4c
  rw [readTouch_release r4.2 q5 e e e e rot h5] at hr5
  have h5a : r5.1 = none := by rw [hr5]
  have h5b : r5.2.touchPoints0.ID = 0 := by rw [hr5]
  have h5c : r5.2.touchID = t + 1 := by rw [hr5]; exact h4b
  obtain ⟨h6a, h6b, pt6, h6c, h6d⟩ := readTouch_first r5.2 q6 e e e e rot h6 h5b
  rw [h5c, show t + 1 + 1 = t + 2 from rfl, hmod2] at h6b h6d
  rw [← hr6] at h6b h6c
  exact ⟨⟨h1a, h1b, h1c⟩, ⟨⟨pt2, h2c, h2d⟩, h2a, h2b⟩, ⟨⟨pt3, h3c, h3d⟩, h3a, h3b⟩,
    ⟨⟨pt4, h4c, h4d⟩, h4a, h4b⟩, ⟨h5a, h5b, h5c⟩, ⟨⟨pt6, h6c, h6d⟩, h6b⟩,
    Nat.succ_pos t, Nat.lt_succ_self (t + 1)⟩

theorem touch_contact_lifecycle_witness :
    (touchInput.ReadTouch
      (touchInput.ReadTouch ⟨⟨0, 0, 0⟩, 0, ⟨0, 0, 0, 0, 0⟩, ⟨0, 0, 0, 0, 0⟩, ⟨0⟩, ⟨0⟩, 0, 0⟩
        ⟨7, 7, 0⟩ ⟨7, 7, 0⟩ ⟨7, 7, 0⟩ ⟨7, 7, 0⟩ ⟨7, 7, 0⟩ 0).2
      ⟨7, 7, 9000⟩ ⟨7, 7, 0⟩ ⟨7, 7, 0⟩ ⟨7, 7, 0⟩ ⟨7, 7, 0⟩ 0).2.touchID = 1 := by
  have h := touch_contact_lifecycle
    ⟨⟨0, 0, 0⟩, 0, ⟨0, 0, 0, 0, 0⟩, ⟨0, 0, 0, 0, 0⟩, ⟨0⟩, ⟨0⟩, 0, 0⟩ 0
    ⟨7, 7, 0⟩ ⟨7, 7, 9000⟩ ⟨7, 7, 9000⟩ ⟨7, 7, 9000⟩ ⟨7, 7, 0⟩ ⟨7, 7, 9000⟩ ⟨7, 7, 0⟩ 0
    _ _ _ _ _ _
    (by decide) (by decide) (by decide) (by decide) (by decide) (by decide)
    (by decide) (by decide) (by decide) rfl rfl rfl rfl rfl rfl
  exact h.2.1.2.2

/-! ## Battery gauge smoothing (claim C8, spec-modelled) -/

/-- Claim C8 (spec-modelled): each smoothing step of the gauge updates the
fixed-point ppm accumulator with weight 1/256
(`smoothed = (smoothed*255 + instantaneous)/256`), and overwrites the
reported integer percent with the candidate derived from the smoothed value
exactly when that candidate is below the last reported percent or above it
by more than one; otherwise the reported percent is unchanged. -/
theorem batteryGauge_ewma_and_hysteresis (g : BatteryGaugeState) (microvolts : Nat) :
    (g.update microvolts).smoothedPPM =
      Int.tdiv (g.smoothedPPM * 255 +
        lithumBatteryApproximation.approximatePPM microvolts) 256 ∧
    ((Int.tdiv (g.update microvolts).smoothedPPM 10000 < g.lastPercent ∨
        Int.tdiv (g.update microvolts).smoothedPPM 10000 > g.lastPercent + 1) →
      (g.update microvolts).lastPercent =
        Int.tdiv (g.update microvolts).smoothedPPM 10000) ∧
    (g.lastPercent ≤ Int.tdiv (g.update microvolts).smoothedPPM 10000 →
      Int.tdiv (g.update microvolts).smoothedPPM 10000 ≤ g.lastPercent + 1 →
      (g.update microvolts).lastPercent = g.lastPercent) := by
  rw [BatteryGaugeState.update]
  split_ifs with h
  · refine ⟨rfl, fun _ => rfl, fun hle hge => ?_⟩
    dsimp only at hle hge
    exact absurd h (by omega)
  · refine ⟨rfl, fun hc => ?_, fun _ _ => rfl⟩
    dsimp only at hc
    exact absurd hc h

theorem batteryGauge_ewma_and_hysteresis_witness :
    (BatteryGaugeState.update ⟨0, 0⟩ 3750000).smoothedPPM =
      Int.tdiv (0 * 255 + lithumBatteryApproximation.approximatePPM 3750000) 256 ∧
    (BatteryGaugeState.update ⟨0, 0⟩ 3750000).lastPercent = 0 := by
  have h := batteryGauge_ewma_and_hysteresis ⟨0, 0⟩ 3750000
  exact ⟨h.1, h.2.2 (by decide) (by decide)⟩

end Board
